import Mathlib

/-!
Verification of the crowgent-openapi CLI (src/cli.ts).

The development shallowly embeds the program's pure core:

* `collectList` models `collectFiles` (recursive directory scan with
  hidden-name / ignore-list / extension / size filters);
* `scanFiles` models the directory-vs-file dispatch in the CLI action;
* `assemble` models the code-context assembly (`files.map(...).join('\n\n')`);
* `postprocess` models the response normalization
  `yaml.replace(/^(triple-backtick)ya?ml\n?/i, '').replace(/\n?(triple-backtick)$/i, '').trim()`;
* `runQA` models the interactive Q&A loop;
* `runAction` models the whole CLI action as a deterministic function of the
  flags, the environment, a file-system oracle, the scripted interactive
  answers, and the completion-service oracle.

File-system reads, terminal rendering and the network transport are treated
as oracles/inputs; machine integers do not occur (sizes are Nat, JS numbers
here are small integers).
-/

/-- A node of the scanned file tree, as observed through `readdirSync` /
`statSync` / `readFileSync`: a file has a byte size and a text content, a
directory has a list of child entries in native listing order. -/
inductive Entry where
  | file (name : String) (size : Nat) (content : String) : Entry
  | dir (name : String) (entries : List Entry) : Entry

/-- The record `{ path, content }` produced by `collectFiles` and by the
single-file branch of the CLI action. -/
structure SourceFile where
  path : String
  content : String
deriving DecidableEq

/-- `const EXTENSIONS = ['.ts', '.js', '.tsx', '.jsx', '.py', '.rb', '.go', '.java', '.kt', '.rs']` -/
def EXTENSIONS : List String :=
  [".ts", ".js", ".tsx", ".jsx", ".py", ".rb", ".go", ".java", ".kt", ".rs"]

/-- `const IGNORE = ['node_modules', '.git', 'dist', 'build', '__pycache__', '.next', 'coverage']` -/
def IGNORE : List String :=
  ["node_modules", ".git", "dist", "build", "__pycache__", ".next", "coverage"]

/-- JavaScript `entry.startsWith('.')`. -/
def jsStartsWithDot (s : String) : Bool :=
  match s.data with
  | '.' :: _ => true
  | _ => false

/-- Helper for `extname`: the suffix of the character list starting at its
last `'.'`, if any. -/
def lastDotSuffix : List Char → Option (List Char)
  | [] => none
  | c :: rest =>
    match lastDotSuffix rest with
    | some e => some e
    | none => if c = '.' then some (c :: rest) else none

/-- Node's `path.extname` on a directory-entry name (no separators): the
substring from the last `'.'` to the end, empty when there is no dot or when
the only dot is the leading character. -/
def extname (s : String) : String :=
  match s.data with
  | [] => ""
  | _ :: rest =>
    match lastDotSuffix rest with
    | some e => String.mk e
    | none => ""

/-- `relative(root, fullPath)` for the accumulated entry names: the
components joined by the path separator. -/
def joinPath (comps : List String) : String := String.intercalate "/" comps

/-- `collectFiles(dir, root)`: iterate over the entries of `dir` (whose
component path below the root is `pre`); skip entries whose name starts with
a dot or is in `IGNORE`; recurse into directories; keep files whose
extension is in `EXTENSIONS` and whose size is strictly below 100000. -/
def collectList (pre : List String) : List Entry → List SourceFile
  | [] => []
  | Entry.file name size content :: rest =>
    (if jsStartsWithDot name = false ∧ IGNORE.contains name = false
        ∧ EXTENSIONS.contains (extname name) = true ∧ size < 100000
     then [⟨joinPath (pre ++ [name]), content⟩]
     else [])
    ++ collectList pre rest
  | Entry.dir name sub :: rest =>
    (if jsStartsWithDot name = false ∧ IGNORE.contains name = false
     then collectList (pre ++ [name]) sub
     else [])
    ++ collectList pre rest

/-- The scan step of the CLI action: `stat.isDirectory() ? collectFiles(targetDir)
: [{ path: targetDir, content: readFileSync(targetDir, 'utf-8') }]`. -/
def scanFiles (targetDir : String) (node : Entry) : List SourceFile :=
  match node with
  | Entry.dir _ entries => collectList [] entries
  | Entry.file _ _ content => [⟨targetDir, content⟩]

theorem getLastD_irrel {α : Type} {l : List α} (h : l ≠ []) (d d' : α) :
    l.getLastD d = l.getLastD d' := by
  cases l with
  | nil => exact absurd rfl h
  | cons a t => rw [List.getLastD_cons, List.getLastD_cons]

/-- Every file returned by `collectFiles` decomposes into nonempty path
components, each of which passed the hidden-name and ignore-list filters,
with the final component (the file name) carrying a supported extension. -/
theorem mem_collectList {f : SourceFile} (pre : List String) (es : List Entry)
    (h : f ∈ collectList pre es) :
    ∃ comps, comps ≠ [] ∧ f.path = joinPath (pre ++ comps) ∧
      (∀ n ∈ comps, jsStartsWithDot n = false ∧ IGNORE.contains n = false) ∧
      EXTENSIONS.contains (extname (comps.getLastD "")) = true := by
  induction pre, es using collectList.induct with
  | case1 pre =>
    simp [collectList] at h
  | case2 pre name size content rest ih =>
    simp only [collectList] at h
    rcases List.mem_append.mp h with h1 | h2
    · split at h1
      · rename_i hcond
        obtain ⟨hdot, hig, hext, _⟩ := hcond
        simp only [List.mem_singleton] at h1
        subst h1
        refine ⟨[name], by simp, rfl, ?_, ?_⟩
        · intro n hn
          simp only [List.mem_singleton] at hn
          subst hn
          exact ⟨hdot, hig⟩
        · simpa [List.getLastD_cons] using hext
      · simp at h1
    · exact ih h2
  | case3 pre name sub rest ih1 ih2 =>
    simp only [collectList] at h
    rcases List.mem_append.mp h with h1 | h2
    · split at h1
      · rename_i hcond
        obtain ⟨hdot, hig⟩ := hcond
        obtain ⟨comps, hne, hpath, hall, hext⟩ := ih1 h1
        refine ⟨name :: comps, by simp, ?_, ?_, ?_⟩
        · rw [hpath, List.append_assoc]
          rfl
        · intro n hn
          rcases List.mem_cons.mp hn with hn | hn
          · subst hn; exact ⟨hdot, hig⟩
          · exact hall n hn
        · rw [List.getLastD_cons, getLastD_irrel hne name ""]
          exact hext
      · simp at h1
    · exact ih2 h2

/-- C2: every entry returned by `collectFiles` has a supported extension,
never lies (at any depth) under a hidden-named or ignored directory, and
files of size at least the 100000-byte cap — in particular exactly at the
cap — are excluded. -/
theorem collectFiles_filters :
    (∀ (es : List Entry) (f : SourceFile), f ∈ collectList [] es →
      ∃ comps, comps ≠ [] ∧ f.path = joinPath comps ∧
        (∀ n ∈ comps, jsStartsWithDot n = false ∧ IGNORE.contains n = false) ∧
        EXTENSIONS.contains (extname (comps.getLastD "")) = true)
  ∧ (∀ (pre : List String) (name : String) (size : Nat) (content : String) (rest : List Entry),
      100000 ≤ size →
      collectList pre (Entry.file name size content :: rest) = collectList pre rest) := by
  constructor
  · intro es f h
    obtain ⟨comps, h1, h2, h3, h4⟩ := mem_collectList [] es h
    exact ⟨comps, h1, by simpa using h2, h3, h4⟩
  · intro pre name size content rest hsz
    have hlt : ¬ size < 100000 := by omega
    simp [collectList, hlt]

/-- The spec's test scenario: `./api` holds `users.py` (40 bytes),
`node_modules/ignored.py`, and an oversized `huge.py`. -/
def demoTree : List Entry :=
  [Entry.file "users.py" 40 "c",
   Entry.dir "node_modules" [Entry.file "ignored.py" 10 "z"],
   Entry.file "huge.py" 150000 "h"]

theorem collectFiles_filters_witness :
    (∃ comps, comps ≠ [] ∧ (⟨"users.py", "c"⟩ : SourceFile).path = joinPath comps ∧
        (∀ n ∈ comps, jsStartsWithDot n = false ∧ IGNORE.contains n = false) ∧
        EXTENSIONS.contains (extname (comps.getLastD "")) = true)
  ∧ collectList [] [Entry.file "huge.py" 100000 "h"] = collectList [] [] :=
  ⟨collectFiles_filters.1 demoTree ⟨"users.py", "c"⟩ (by simp +decide [collectList, demoTree]),
   collectFiles_filters.2 [] "huge.py" 100000 "h" [] (by omega)⟩

/-- Case-insensitive anchored match of a lowercase pattern against the head
of a character list (the anchored literal part of a `/i` regex); on success
returns the characters after the match. -/
def matchCI : List Char → List Char → Option (List Char)
  | [], cs => some cs
  | _ :: _, [] => none
  | p :: ps, c :: cs => if Char.toLower c = p then matchCI ps cs else none

/-- The `\n?` at the end of the leading-fence regex: drop one newline if
present. -/
def dropOptNL : List Char → List Char
  | '\n' :: rest => rest
  | cs => cs

/-- `yaml.replace(/^(triple-backtick)ya?ml\n?/i, '')`: the greedy `a?` tries
the `yaml` tag first, then `yml`; the match is anchored, so at most the
leading fence-plus-tag (and one newline) is removed. A leading fence with no
tag, or any other tag, does not match. -/
def stripLeadingFence (cs : List Char) : List Char :=
  match matchCI ['`', '`', '`', 'y', 'a', 'm', 'l'] cs with
  | some rest => dropOptNL rest
  | none =>
    match matchCI ['`', '`', '`', 'y', 'm', 'l'] cs with
    | some rest => dropOptNL rest
    | none => cs

/-- Helper for the trailing-fence regex, operating on the reversed list: the
leftmost match of `\n?(triple-backtick)$` is the final four characters
`\n(triple-backtick)` when present, else the final three backticks. -/
def stripRevFence : List Char → List Char
  | '`' :: '`' :: '`' :: '\n' :: rest => rest
  | '`' :: '`' :: '`' :: rest => rest
  | cs => cs

/-- `.replace(/\n?(triple-backtick)$/i, '')` (non-global: only the end-of-string
match is removed). -/
def stripTrailingFence (cs : List Char) : List Char :=
  (stripRevFence cs.reverse).reverse

/-- The JavaScript WhiteSpace and LineTerminator code points removed by
`String.prototype.trim`. -/
def isJsSpace (c : Char) : Bool :=
  c = ' ' || c = '\t' || c = '\n' || c = '\x0b' || c = '\x0c' || c = '\r' ||
  c = '\u00A0' || c = '\u1680' || ('\u2000' ≤ c && c ≤ '\u200A') ||
  c = '\u2028' || c = '\u2029' || c = '\u202F' || c = '\u205F' ||
  c = '\u3000' || c = '\uFEFF'

/-- JavaScript `.trim()`: drop leading then trailing whitespace. -/
def jsTrim (l : List Char) : List Char :=
  ((l.dropWhile isJsSpace).reverse.dropWhile isJsSpace).reverse

/-- The full response normalization before `writeFileSync`:
`yaml.replace(/^(triple-backtick)ya?ml\n?/i, '').replace(/\n?(triple-backtick)$/i, '').trim()`. -/
def postprocess (s : String) : String :=
  String.mk (jsTrim (stripTrailingFence (stripLeadingFence s.data)))

/-- Whether a character list contains a code-fence marker (three consecutive
backticks). -/
def containsFence : List Char → Bool
  | a :: b :: c :: rest => (a = '`' && b = '`' && c = '`') || containsFence (b :: c :: rest)
  | _ => false

/-- `files.map(f => header + fenced content).join('\n\n')` — the code-context
assembly sent in the user message. -/
def assemble (files : List SourceFile) : String :=
  String.intercalate "\n\n"
    (files.map fun f => "### " ++ f.path ++ "\n```\n" ++ f.content ++ "\n```")

/-- C3: when the resolved target is a file, the scan bypasses recursive
collection and returns exactly that file verbatim — even with an unsupported
extension and a size above the cap, as the contrasting conjuncts show. -/
theorem scan_single_file :
    (∀ (target name : String) (size : Nat) (content : String),
      scanFiles target (Entry.file name size content) = [⟨target, content⟩])
  ∧ scanFiles "big.bin" (Entry.file "big.bin" 123456 "data") = [⟨"big.bin", "data"⟩]
  ∧ collectList [] [Entry.file "big.bin" 123456 "data"] = [] := by
  refine ⟨fun target name size content => rfl, rfl, by simp +decide [collectList]⟩

theorem map_toLower_cons {l : List Char} {p : Char} {ps : List Char}
    (h : l.map Char.toLower = p :: ps) :
    ∃ a l', l = a :: l' ∧ Char.toLower a = p ∧ l'.map Char.toLower = ps := by
  cases l with
  | nil => simp at h
  | cons a l' =>
    simp only [List.map_cons, List.cons.injEq] at h
    exact ⟨a, l', rfl, h.1, h.2⟩

theorem containsFence_eq_false {l : List Char} (h : '`' ∉ l) :
    containsFence l = false := by
  match l with
  | [] => rfl
  | [a] => rfl
  | [a, b] => rfl
  | a :: b :: c :: rest =>
    have ha : ¬ a = '`' := fun he => h (he ▸ List.mem_cons_self a (b :: c :: rest))
    have h' : '`' ∉ b :: c :: rest := fun hm => h (List.mem_cons_of_mem a hm)
    simp only [containsFence, Bool.or_eq_false_iff]
    exact ⟨by simp [ha], containsFence_eq_false h'⟩

theorem mem_of_mem_jsTrim {c : Char} {l : List Char} (h : c ∈ jsTrim l) : c ∈ l := by
  unfold jsTrim at h
  have h1 := List.mem_reverse.mp h
  have h2 := (List.dropWhile_suffix isJsSpace).subset h1
  have h3 := List.mem_reverse.mp h2
  exact (List.dropWhile_suffix isJsSpace).subset h3

/-- C1 counterexample: a response wrapped in fence markers with no language
tag keeps its leading fence — the leading-fence regex demands a `yaml`/`yml`
tag, so the written file still contains a fence marker. -/
theorem fence_strip_counterexample :
    containsFence (postprocess "```\nopenapi: 3.0.3\n```").data = true := by decide

/-- C1 (amended): the leading fence marker is stripped only when it carries
a `yaml` or `yml` language tag (matched case-insensitively); for a response
wrapped in such a tagged leading fence and a trailing bare fence, with a
backtick-free body, the written text contains no fence markers. -/
theorem fence_strip_amended (tag body : String)
    (htag : tag.data.map Char.toLower = "yaml".data ∨ tag.data.map Char.toLower = "yml".data)
    (hbody : '`' ∉ body.data) :
    containsFence (postprocess ("```" ++ tag ++ "\n" ++ body ++ "\n```")).data = false := by
  have hdata : ("```" ++ tag ++ "\n" ++ body ++ "\n```").data
      = '`' :: '`' :: '`' :: (tag.data ++ '\n' :: (body.data ++ ['\n', '`', '`', '`'])) := by
    have h1 : ("```" : String).data = ['`', '`', '`'] := rfl
    have h2 : ("\n" : String).data = ['\n'] := rfl
    have h3 : ("\n```" : String).data = ['\n', '`', '`', '`'] := rfl
    simp [String.data_append, h1, h2, h3]
  have hlead : stripLeadingFence ("```" ++ tag ++ "\n" ++ body ++ "\n```").data
      = body.data ++ ['\n', '`', '`', '`'] := by
    rw [hdata]
    rcases htag with htag | htag
    · obtain ⟨a, l1, heq, ha, htag⟩ := map_toLower_cons htag
      obtain ⟨b, l2, rfl, hb, htag⟩ := map_toLower_cons htag
      obtain ⟨c, l3, rfl, hc, htag⟩ := map_toLower_cons htag
      obtain ⟨d, l4, rfl, hd, htag⟩ := map_toLower_cons htag
      have hnil : l4 = [] := List.map_eq_nil_iff.mp htag
      subst hnil
      rw [heq]
      simp [stripLeadingFence, matchCI, ha, hb, hc, hd, dropOptNL]
    · obtain ⟨a, l1, heq, ha, htag⟩ := map_toLower_cons htag
      obtain ⟨b, l2, rfl, hb, htag⟩ := map_toLower_cons htag
      obtain ⟨c, l3, rfl, hc, htag⟩ := map_toLower_cons htag
      have hnil : l3 = [] := List.map_eq_nil_iff.mp htag
      subst hnil
      rw [heq]
      simp [stripLeadingFence, matchCI, ha, hb, hc, dropOptNL]
  have htrail : stripTrailingFence (body.data ++ ['\n', '`', '`', '`']) = body.data := by
    unfold stripTrailingFence
    have hrev : (body.data ++ ['\n', '`', '`', '`']).reverse
        = '`' :: '`' :: '`' :: '\n' :: body.data.reverse := by
      simp [List.reverse_append]
    rw [hrev]
    simp [stripRevFence]
  show containsFence (jsTrim (stripTrailingFence (stripLeadingFence _))) = false
  rw [hlead, htrail]
  exact containsFence_eq_false (fun hm => hbody (mem_of_mem_jsTrim hm))

theorem fence_strip_amended_witness :
    containsFence (postprocess ("```" ++ "YAML" ++ "\n" ++ "openapi: 3.0.3" ++ "\n```")).data
      = false :=
  fence_strip_amended "YAML" "openapi: 3.0.3" (Or.inl (by decide)) (by decide)

/-- Whether a character list begins with a JS-whitespace character. -/
def headIsSpace : List Char → Bool
  | [] => false
  | c :: _ => isJsSpace c

theorem headIsSpace_dropWhile (l : List Char) :
    headIsSpace (l.dropWhile isJsSpace) = false := by
  induction l with
  | nil => rfl
  | cons c t ih =>
    by_cases h : isJsSpace c
    · simpa [List.dropWhile_cons, h] using ih
    · simp [List.dropWhile_cons, h, headIsSpace]

theorem headIsSpace_append (R s : List Char) (h : headIsSpace (R ++ s) = false) :
    headIsSpace R = false := by
  cases R with
  | nil => rfl
  | cons c t => simpa [headIsSpace] using h

theorem headIsSpace_jsTrim (l : List Char) : headIsSpace (jsTrim l) = false := by
  obtain ⟨t, ht⟩ := List.dropWhile_suffix (l := (l.dropWhile isJsSpace).reverse) isJsSpace
  have hrev : l.dropWhile isJsSpace = jsTrim l ++ t.reverse := by
    have h2 := congrArg List.reverse ht
    simpa [jsTrim, List.reverse_append] using h2.symm
  exact headIsSpace_append _ _ (hrev ▸ headIsSpace_dropWhile l)

theorem endIsSpace_jsTrim (l : List Char) : headIsSpace (jsTrim l).reverse = false := by
  unfold jsTrim
  rw [List.reverse_reverse]
  exact headIsSpace_dropWhile _

/-- C10 counterexample: a response that is already fence-free and trimmed is
written back byte-for-byte, so the write can be byte-identical to the
response text. -/
theorem written_text_counterexample :
    postprocess "openapi: 3.0.3" = "openapi: 3.0.3" := by decide

/-- C10 (amended): for every completion response the written text is trimmed
of leading and trailing whitespace — also when no fence markers are present,
as the second conjunct shows — so it never begins or ends with whitespace;
it may however coincide byte-for-byte with an already-normalized response. -/
theorem written_text_trimmed :
    (∀ s : String, headIsSpace (postprocess s).data = false ∧
      headIsSpace (postprocess s).data.reverse = false)
  ∧ postprocess "  openapi: 3.0.3  " = "openapi: 3.0.3" := by
  exact ⟨fun s => ⟨headIsSpace_jsTrim _, endIsSpace_jsTrim _⟩, by decide⟩

/-- Two files whose rendered blocks commute: the second file's content embeds
the fence delimiter and header, so both orders assemble identically. -/
def swapA : SourceFile := ⟨"p", "c"⟩

def swapB : SourceFile := ⟨"p", "c\n```\n\n### p\n```\nc"⟩

/-- C8 counterexample: reordering does not always change the assembled
output — `swapA`/`swapB` are distinct files, the two orders are distinct
lists, yet both assemble to the same text (contents may embed the block
delimiters, as the spec itself notes). -/
theorem assemble_reorder_counterexample :
    [swapA, swapB].Perm [swapB, swapA] ∧ [swapA, swapB] ≠ [swapB, swapA] ∧
    assemble [swapA, swapB] = assemble [swapB, swapA] :=
  ⟨List.Perm.swap swapB swapA [], by decide, by decide⟩

/-- C8 (amended): the assembler is deterministic — equal ordered inputs give
byte-identical output — and reordering the input can change the output
(witnessed by a pair of distinct files), but does not do so for every
reordering. -/
theorem assemble_deterministic (l l' : List SourceFile) (h : l = l') :
    assemble l = assemble l' ∧
    ∃ m m' : List SourceFile, m.Perm m' ∧ m ≠ m' ∧ assemble m ≠ assemble m' := by
  refine ⟨by rw [h], [⟨"a", "1"⟩, ⟨"b", "2"⟩], [⟨"b", "2"⟩, ⟨"a", "1"⟩],
    List.Perm.swap _ _ _, by decide, by decide⟩

theorem assemble_deterministic_witness :
    assemble [⟨"x", "y"⟩] = assemble [⟨"x", "y"⟩] :=
  (assemble_deterministic [⟨"x", "y"⟩] [⟨"x", "y"⟩] rfl).1

/-- Message roles of the chat-completion API. -/
inductive Role where
  | system
  | user
  | assistant
deriving DecidableEq

/-- One `{ role, content }` entry of the conversation history. -/
structure Msg where
  role : Role
  content : String
deriving DecidableEq

/-- The outcome of one `@clack/prompts` interaction: a submitted value, or a
cancellation (`p.isCancel`). -/
inductive PromptResult (α : Type) where
  | value (a : α)
  | cancel
deriving DecidableEq

/-- JavaScript `s.toLowerCase()` (ASCII range; the termination marker and
fence tags are ASCII). -/
def jsToLower (s : String) : String := String.mk (s.data.map Char.toLower)

/-- The fixed system instruction of `runQA`. -/
def qaSystemPrompt : String :=
  "You are a helpful assistant for Crow (https://usecrow.ai), an AI agent platform.\n\nYou help developers understand:\n- OpenAPI specifications: what they are, how they describe REST APIs\n- Crow's workflow: generate spec → upload to app.usecrow.ai/integration/openapi → endpoints become \"actions\"\n- Actions: tools that the AI agent can call on behalf of users to interact with their API\n- How Crow uses the OpenAPI spec to know what parameters to pass, what responses to expect\n\nBe concise, friendly, and helpful. Keep answers to 2-3 sentences unless they ask for more detail.\nIf they ask something unrelated to Crow or OpenAPI, politely redirect them."

/-- `'Sorry, I couldn\'t generate a response.'` — the fallback when the
completion content is null. -/
def fallbackAnswer : String := "Sorry, I couldn't generate a response."

/-- One scripted iteration of the Q&A loop: the prompt outcome for the user
question, and — if a request is issued — the completion outcome (an error
message, or a possibly-null content). -/
structure QATurn where
  question : PromptResult String
  response : Except String (Option String)

/-- `runQA`'s loop over a finite script of turn inputs. Each iteration:
cancel / empty / case-insensitive "done" ends the loop with no request; else
the user message is pushed, one request is issued, and on success the
assistant reply (or the fallback for null content) is pushed. Returns the
final history and the number of completion requests issued. -/
def runQA (msgs : List Msg) : List QATurn → List Msg × Nat
  | [] => (msgs, 0)
  | t :: rest =>
    match t.question with
    | PromptResult.cancel => (msgs, 0)
    | PromptResult.value q =>
      if q = "" ∨ jsToLower q = "done" then (msgs, 0)
      else
        match t.response with
        | Except.error _ =>
          let r := runQA (msgs ++ [⟨Role.user, q⟩]) rest
          (r.1, r.2 + 1)
        | Except.ok c =>
          let r := runQA ((msgs ++ [⟨Role.user, q⟩])
            ++ [⟨Role.assistant, c.getD fallbackAnswer⟩]) rest
          (r.1, r.2 + 1)

/-- C5: cancelling, submitting empty input, or submitting "done" in any
letter casing terminates the Q&A loop immediately — the history is unchanged
and no completion request is issued for that turn or any later turn. -/
theorem qa_termination (msgs : List Msg) (t : QATurn) (rest : List QATurn)
    (h : t.question = PromptResult.cancel ∨
      ∃ v, t.question = PromptResult.value v ∧ (v = "" ∨ jsToLower v = "done")) :
    runQA msgs (t :: rest) = (msgs, 0) := by
  rcases h with h | ⟨v, hq, hv⟩
  · simp [runQA, h]
  · rcases hv with hv | hv
    · simp [runQA, hq, hv]
    · simp [runQA, hq, hv]

theorem qa_termination_witness :
    runQA [] [⟨PromptResult.value "DoNe", Except.ok (some "x")⟩,
              ⟨PromptResult.value "hi", Except.ok (some "y")⟩] = ([], 0) :=
  qa_termination [] _ _ (Or.inr ⟨"DoNe", rfl, Or.inr (by decide)⟩)

/-- C6: when the completion request of a Q&A turn fails, the loop does not
terminate — it continues with the remaining turns — the failed turn's user
message stays in the history, and exactly one request was issued for the
failed turn. -/
theorem qa_turn_failure (msgs : List Msg) (q e : String) (rest : List QATurn)
    (h1 : ¬ q = "") (h2 : ¬ jsToLower q = "done") :
    runQA msgs (⟨PromptResult.value q, Except.error e⟩ :: rest)
      = ((runQA (msgs ++ [⟨Role.user, q⟩]) rest).1,
         (runQA (msgs ++ [⟨Role.user, q⟩]) rest).2 + 1) := by
  simp [runQA, h1, h2]

theorem qa_turn_failure_witness :
    runQA [] [⟨PromptResult.value "hi", Except.error "boom"⟩]
      = ((runQA [⟨Role.user, "hi"⟩] []).1, (runQA [⟨Role.user, "hi"⟩] []).2 + 1) :=
  qa_turn_failure [] "hi" "boom" [] (by decide) (by decide)

/-- C7: the conversation history only ever grows by appending — so the fixed
system instruction stays the unremoved, unreordered first entry — and a
completed turn appends exactly the user question followed by the assistant
answer. -/
theorem qa_history_invariants :
    (∀ (turns : List QATurn) (msgs : List Msg),
      ∃ tail, (runQA msgs turns).1 = msgs ++ tail)
  ∧ (∀ turns : List QATurn,
      (runQA [⟨Role.system, qaSystemPrompt⟩] turns).1.head?
        = some ⟨Role.system, qaSystemPrompt⟩)
  ∧ (∀ (msgs : List Msg) (q ans : String) (rest : List QATurn),
      ¬ q = "" → ¬ jsToLower q = "done" →
      runQA msgs (⟨PromptResult.value q, Except.ok (some ans)⟩ :: rest)
        = ((runQA (msgs ++ [⟨Role.user, q⟩, ⟨Role.assistant, ans⟩]) rest).1,
           (runQA (msgs ++ [⟨Role.user, q⟩, ⟨Role.assistant, ans⟩]) rest).2 + 1)) := by
  have part1 : ∀ (turns : List QATurn) (msgs : List Msg),
      ∃ tail, (runQA msgs turns).1 = msgs ++ tail := by
    intro turns
    induction turns with
    | nil => exact fun msgs => ⟨[], by simp [runQA]⟩
    | cons t rest ih =>
      intro msgs
      match hq : t.question with
      | PromptResult.cancel => exact ⟨[], by simp [runQA, hq]⟩
      | PromptResult.value q =>
        by_cases hterm : q = "" ∨ jsToLower q = "done"
        · exact ⟨[], by simp [runQA, hq, hterm]⟩
        · match hr : t.response with
          | Except.error e =>
            obtain ⟨tail, htail⟩ := ih (msgs ++ [⟨Role.user, q⟩])
            exact ⟨⟨Role.user, q⟩ :: tail, by simp [runQA, hq, hterm, hr, htail]⟩
          | Except.ok c =>
            obtain ⟨tail, htail⟩ :=
              ih ((msgs ++ [⟨Role.user, q⟩]) ++ [⟨Role.assistant, c.getD fallbackAnswer⟩])
            refine ⟨⟨Role.user, q⟩ :: ⟨Role.assistant, c.getD fallbackAnswer⟩ :: tail, ?_⟩
            simp only [List.append_assoc, List.cons_append, List.nil_append] at htail
            simp [runQA, hq, hterm, hr, htail]
  refine ⟨part1, ?_, ?_⟩
  · intro turns
    obtain ⟨tail, h⟩ := part1 turns [⟨Role.system, qaSystemPrompt⟩]
    rw [h]
    rfl
  · intro msgs q ans rest h1 h2
    simp [runQA, h1, h2]

theorem qa_history_invariants_witness :
    (∃ tail, (runQA [⟨Role.system, qaSystemPrompt⟩]
        [⟨PromptResult.value "hi", Except.ok (some "yes")⟩]).1
      = [⟨Role.system, qaSystemPrompt⟩] ++ tail)
  ∧ runQA [] [⟨PromptResult.value "hi", Except.ok (some "yes")⟩]
      = ((runQA [⟨Role.user, "hi"⟩, ⟨Role.assistant, "yes"⟩] []).1,
         (runQA [⟨Role.user, "hi"⟩, ⟨Role.assistant, "yes"⟩] []).2 + 1) :=
  ⟨qa_history_invariants.1 [⟨PromptResult.value "hi", Except.ok (some "yes")⟩]
      [⟨Role.system, qaSystemPrompt⟩],
   qa_history_invariants.2.2 [] "hi" "yes" [] (by decide) (by decide)⟩

/-- The commander options of the CLI action (string options are `none` when
not supplied). -/
structure Opts where
  yes : Bool
  output : Option String
  apiKey : Option String
  baseUrl : Option String
  model : String

/-- The scripted outcomes of the interactive prompts, in the order the
action can reach them. -/
structure PromptScript where
  consent : PromptResult Bool
  dirInput : PromptResult String
  outputInput : PromptResult String
  urlInput : PromptResult String
  wantHelp : PromptResult Bool
  qaTurns : List QATurn

/-- The completion-service oracle for the one-shot generation request: an
error, or a possibly-null response content. -/
structure Oracle where
  genResult : Except String (Option String)

/-- The observable outcome of a run: the process exit status, the single
`writeFileSync` (output path and text) if one happened, and the number of
completion requests issued. -/
structure RunResult where
  exitCode : Nat
  written : Option (String × String)
  apiCalls : Nat

/-- Outcome of one parameter-resolution step: a resolved value, or
`process.exit(code)`. -/
inductive StepOut (α : Type) where
  | ok (a : α)
  | exit (code : Nat)

/-- JavaScript string falsiness: the empty string counts as absent. -/
def strFalsy (x : Option String) : Option String :=
  match x with
  | none => none
  | some s => if s = "" then none else some s

/-- JavaScript `a || b` on (possibly absent) strings. -/
def jsOr (a b : Option String) : Option String :=
  match a with
  | some s => some s
  | none => b

/-- The consent step: with `--yes` it is skipped (auto-approved); otherwise
a cancelled or negative confirmation exits with status 0. -/
def resolveConsent (yes : Bool) (consent : PromptResult Bool) : StepOut Unit :=
  if yes = false then
    match consent with
    | PromptResult.cancel => StepOut.exit 0
    | PromptResult.value b => if b then StepOut.ok () else StepOut.exit 0
  else StepOut.ok ()

/-- The directory step: a supplied-but-missing argument is cleared (with a
warning) when prompting is allowed; an absent value is prompted for unless
`--yes`; a cancelled prompt exits with status 0; empty values fall back to
`'.'` (`targetDir = targetDir || '.'`). The prompt's `validate` re-asks
until the path exists, so a returned value passes the later existence check. -/
def resolveTargetDir (yes : Bool) (dirArg : Option String)
    (fs : String → Option Entry) (dirInput : PromptResult String) : StepOut String :=
  let t0 := strFalsy dirArg
  let t1 := match t0 with
    | some d => if (fs d).isNone = true ∧ yes = false then none else some d
    | none => none
  match t1 with
  | some d => StepOut.ok d
  | none =>
    if yes = false then
      match dirInput with
      | PromptResult.cancel => StepOut.exit 0
      | PromptResult.value v => StepOut.ok (if v = "" then "." else v)
    else StepOut.ok "."

/-- The output-path and base-URL steps: flag value if truthy, else prompt
unless `--yes` (cancellation exits with status 0), else the default. -/
def resolveOpt (yes : Bool) (flagVal : Option String) (input : PromptResult String)
    (dflt : String) : StepOut String :=
  match strFalsy flagVal with
  | some v => StepOut.ok v
  | none =>
    if yes = false then
      match input with
      | PromptResult.cancel => StepOut.exit 0
      | PromptResult.value v => StepOut.ok (if v = "" then dflt else v)
    else StepOut.ok dflt

/-- The whole CLI action as a function of the flags, the positional
directory argument, the `OPENAI_API_KEY` environment value, the file-system
oracle (resolution treated as the identity), the prompt script, and the
completion oracle. Mirrors the source order: api-key check, consent,
directory (with existence recheck and `statSync`), output path, base URL,
scan, empty-scan check, one-shot request, write, Q&A gate. -/
def runAction (opts : Opts) (dirArg : Option String) (envKey : Option String)
    (fs : String → Option Entry) (script : PromptScript) (oracle : Oracle) : RunResult :=
  match jsOr (strFalsy opts.apiKey) (strFalsy envKey) with
  | none => ⟨1, none, 0⟩
  | some _ =>
    match resolveConsent opts.yes script.consent with
    | StepOut.exit c => ⟨c, none, 0⟩
    | StepOut.ok _ =>
      match resolveTargetDir opts.yes dirArg fs script.dirInput with
      | StepOut.exit c => ⟨c, none, 0⟩
      | StepOut.ok d =>
        match fs d with
        | none => ⟨1, none, 0⟩
        | some node =>
          match resolveOpt opts.yes opts.output script.outputInput "openapi.yaml" with
          | StepOut.exit c => ⟨c, none, 0⟩
          | StepOut.ok outFile =>
            match resolveOpt opts.yes opts.baseUrl script.urlInput "http://localhost:3000" with
            | StepOut.exit c => ⟨c, none, 0⟩
            | StepOut.ok _ =>
              let files := scanFiles d node
              if files.length = 0 then ⟨1, none, 0⟩
              else
                match oracle.genResult with
                | Except.error _ => ⟨1, none, 1⟩
                | Except.ok content =>
                  let yaml := postprocess (content.getD "")
                  if opts.yes = false then
                    match script.wantHelp with
                    | PromptResult.value true =>
                      ⟨0, some (outFile, yaml),
                        1 + (runQA [⟨Role.system, qaSystemPrompt⟩] script.qaTurns).2⟩
                    | _ => ⟨0, some (outFile, yaml), 1⟩
                  else ⟨0, some (outFile, yaml), 1⟩

/-- C4: with an api key present and prompting enabled, a user cancellation
at any reached interactive step — consent, directory, output path, or base
URL — exits with status 0, writes nothing, and issues no completion
request. -/
theorem cancel_clean_exit (opts : Opts) (dirArg envKey : Option String)
    (fs : String → Option Entry) (script : PromptScript) (oracle : Oracle)
    (hk : (jsOr (strFalsy opts.apiKey) (strFalsy envKey)).isSome = true)
    (hy : opts.yes = false) :
    (script.consent = PromptResult.cancel →
      runAction opts dirArg envKey fs script oracle = ⟨0, none, 0⟩)
  ∧ (script.consent = PromptResult.value true →
      (strFalsy dirArg = none ∨ ∃ d, strFalsy dirArg = some d ∧ (fs d).isNone = true) →
      script.dirInput = PromptResult.cancel →
      runAction opts dirArg envKey fs script oracle = ⟨0, none, 0⟩)
  ∧ (∀ d node, script.consent = PromptResult.value true →
      resolveTargetDir opts.yes dirArg fs script.dirInput = StepOut.ok d →
      fs d = some node →
      strFalsy opts.output = none → script.outputInput = PromptResult.cancel →
      runAction opts dirArg envKey fs script oracle = ⟨0, none, 0⟩)
  ∧ (∀ d node outFile, script.consent = PromptResult.value true →
      resolveTargetDir opts.yes dirArg fs script.dirInput = StepOut.ok d →
      fs d = some node →
      resolveOpt opts.yes opts.output script.outputInput "openapi.yaml" = StepOut.ok outFile →
      strFalsy opts.baseUrl = none → script.urlInput = PromptResult.cancel →
      runAction opts dirArg envKey fs script oracle = ⟨0, none, 0⟩) := by
  obtain ⟨k, hk'⟩ := Option.isSome_iff_exists.mp hk
  refine ⟨?_, ?_, ?_, ?_⟩
  · intro hc
    have hcons : resolveConsent opts.yes script.consent = StepOut.exit 0 := by
      simp [resolveConsent, hy, hc]
    simp [runAction, hk', hcons]
  · intro hc hreach hcan
    have hcons : resolveConsent opts.yes script.consent = StepOut.ok () := by
      simp [resolveConsent, hy, hc]
    have hdir : resolveTargetDir opts.yes dirArg fs script.dirInput = StepOut.exit 0 := by
      rcases hreach with hr | ⟨d, hr, hno⟩
      · simp [resolveTargetDir, hr, hy, hcan]
      · simp [resolveTargetDir, hr, hno, hy, hcan]
    simp [runAction, hk', hcons, hdir]
  · intro d node hc hdir hfs hout hcan
    have hcons : resolveConsent opts.yes script.consent = StepOut.ok () := by
      simp [resolveConsent, hy, hc]
    have houtr : resolveOpt opts.yes opts.output script.outputInput "openapi.yaml"
        = StepOut.exit 0 := by
      simp [resolveOpt, hout, hy, hcan]
    simp [runAction, hk', hcons, hdir, hfs, houtr]
  · intro d node outFile hc hdir hfs hout hurl hcan
    have hcons : resolveConsent opts.yes script.consent = StepOut.ok () := by
      simp [resolveConsent, hy, hc]
    have hurlr : resolveOpt opts.yes opts.baseUrl script.urlInput "http://localhost:3000"
        = StepOut.exit 0 := by
      simp [resolveOpt, hurl, hy, hcan]
    simp [runAction, hk', hcons, hdir, hfs, hout, hurlr]

/-- A one-file file system rooted at the single source file `app.ts`. -/
def demoFs : String → Option Entry :=
  fun s => if s = "app.ts" then some (Entry.file "app.ts" 10 "code") else none

theorem cancel_clean_exit_witness :
    runAction ⟨false, none, some "k", none, "gpt-4o-mini"⟩ none none demoFs
      ⟨PromptResult.cancel, PromptResult.cancel, PromptResult.cancel,
        PromptResult.cancel, PromptResult.cancel, []⟩ ⟨Except.ok (some "spec")⟩
      = ⟨0, none, 0⟩
  ∧ runAction ⟨false, none, some "k", none, "gpt-4o-mini"⟩ none none demoFs
      ⟨PromptResult.value true, PromptResult.cancel, PromptResult.cancel,
        PromptResult.cancel, PromptResult.cancel, []⟩ ⟨Except.ok (some "spec")⟩
      = ⟨0, none, 0⟩
  ∧ runAction ⟨false, none, some "k", none, "gpt-4o-mini"⟩ (some "app.ts") none demoFs
      ⟨PromptResult.value true, PromptResult.cancel, PromptResult.cancel,
        PromptResult.cancel, PromptResult.cancel, []⟩ ⟨Except.ok (some "spec")⟩
      = ⟨0, none, 0⟩
  ∧ runAction ⟨false, some "out.yaml", some "k", none, "gpt-4o-mini"⟩ (some "app.ts") none demoFs
      ⟨PromptResult.value true, PromptResult.cancel, PromptResult.cancel,
        PromptResult.cancel, PromptResult.cancel, []⟩ ⟨Except.ok (some "spec")⟩
      = ⟨0, none, 0⟩ :=
  ⟨(cancel_clean_exit ⟨false, none, some "k", none, "gpt-4o-mini"⟩ none none demoFs
      ⟨PromptResult.cancel, PromptResult.cancel, PromptResult.cancel,
        PromptResult.cancel, PromptResult.cancel, []⟩ ⟨Except.ok (some "spec")⟩
      rfl rfl).1 rfl,
   (cancel_clean_exit ⟨false, none, some "k", none, "gpt-4o-mini"⟩ none none demoFs
      ⟨PromptResult.value true, PromptResult.cancel, PromptResult.cancel,
        PromptResult.cancel, PromptResult.cancel, []⟩ ⟨Except.ok (some "spec")⟩
      rfl rfl).2.1 rfl (Or.inl rfl) rfl,
   (cancel_clean_exit ⟨false, none, some "k", none, "gpt-4o-mini"⟩ (some "app.ts") none demoFs
      ⟨PromptResult.value true, PromptResult.cancel, PromptResult.cancel,
        PromptResult.cancel, PromptResult.cancel, []⟩ ⟨Except.ok (some "spec")⟩
      rfl rfl).2.2.1 "app.ts" (Entry.file "app.ts" 10 "code") rfl rfl rfl rfl rfl,
   (cancel_clean_exit ⟨false, some "out.yaml", some "k", none, "gpt-4o-mini"⟩ (some "app.ts")
      none demoFs
      ⟨PromptResult.value true, PromptResult.cancel, PromptResult.cancel,
        PromptResult.cancel, PromptResult.cancel, []⟩ ⟨Except.ok (some "spec")⟩
      rfl rfl).2.2.2 "app.ts" (Entry.file "app.ts" 10 "code")
      "out.yaml" rfl rfl rfl rfl rfl rfl⟩

/-- C9: with `--yes`, the Q&A session is never offered or entered — at most
the one-shot generation request is issued; and whenever the output file was
written, exactly one request was issued and the run finishes with exit
status 0. -/
theorem yes_skips_qa (opts : Opts) (dirArg envKey : Option String)
    (fs : String → Option Entry) (script : PromptScript) (oracle : Oracle)
    (hy : opts.yes = true) :
    (runAction opts dirArg envKey fs script oracle).apiCalls ≤ 1 ∧
    ((runAction opts dirArg envKey fs script oracle).written.isSome = true →
      (runAction opts dirArg envKey fs script oracle).apiCalls = 1 ∧
      (runAction opts dirArg envKey fs script oracle).exitCode = 0) := by
  unfold runAction
  repeat' split
  all_goals simp_all
  all_goals (split <;> simp_all)

theorem yes_skips_qa_witness :
    (runAction ⟨true, some "out.yaml", some "k", none, "gpt-4o-mini"⟩ (some "app.ts") none
      demoFs ⟨PromptResult.cancel, PromptResult.cancel, PromptResult.cancel,
        PromptResult.cancel, PromptResult.cancel, []⟩
      ⟨Except.ok (some "spec")⟩).apiCalls ≤ 1 :=
  (yes_skips_qa ⟨true, some "out.yaml", some "k", none, "gpt-4o-mini"⟩ (some "app.ts") none
    demoFs ⟨PromptResult.cancel, PromptResult.cancel, PromptResult.cancel,
      PromptResult.cancel, PromptResult.cancel, []⟩ ⟨Except.ok (some "spec")⟩ rfl).1
